import Mathlib

/-!
# Verification of the cheri-gc-kit slab allocator and collector

Shallow embedding, in Lean, of the parts of the `cheri-gc-kit` sources that
the specification's claims are about:

* the compile-time bucket-size tables (`src/bucket_size.hh`),
* the fixed-size bit set (`src/BitSet.hh`),
* the small and large slab chunk headers (`src/slab_allocator.hh`),
* the allocation iterator and the bucket dispatch (`src/slab_allocator.hh`),
* the bump-the-pointer heap (`src/bump_the_pointer_heap.hh`),
* the pointer-update phase of the mark/compact collector
  (`src/mark_and_compact.hh`).

Machine integers are modelled as `Nat` with explicit reductions modulo
`2 ^ 64` (or `2 ^ 32`) at the points where the C++ code relies on unsigned
wrap-around.  Stateful code is modelled by explicit state passing.
-/

set_option maxRecDepth 100000

namespace CheriGC

/-! ## Configuration constants (`src/config.hh`) -/

/-- The `page_size` from `config.hh` (4 KiB). -/
def page_size : Nat := 4096

/-- The `chunk_size` from `config.hh` (2 MiB). -/
def chunk_size : Nat := 2 * 1024 * 1024

/-- The `cache_line_size` from `config.hh`. -/
def cache_line_size : Nat := 64

/-! ## Bucket-size tables (`src/bucket_size.hh`)

The tables are computed at compile time in the source by `constexpr`
functions and recursive templates; the embedding below reproduces those
computations as executable Lean functions on `Nat`/`Int`.
-/

/-- The `is_prime(unsigned i, unsigned prev)` from `bucket_size.hh`: trial
division by every candidate divisor from `prev` down to `2`. -/
def is_primeAux (i : Nat) : Nat → Bool
  | 0 => true
  | 1 => true
  | (prev + 2) => if i % (prev + 2) == 0 then false else is_primeAux i (prev + 1)

/-- The `is_prime(unsigned i)` from `bucket_size.hh`.  Numbers below 4 are
reported as prime (matching the source, which also treats 1 as prime). -/
def is_prime (i : Nat) : Bool :=
  if i < 4 then true else is_primeAux i (i - 1)

/-- Fuel-bounded floor base-2 logarithm; with fuel at least the argument it
computes `log2` from `utils.hh` (the source expresses it as
`63 - clzll(sz)`) on every positive argument. -/
def log2Aux : Nat → Nat → Nat
  | 0, _ => 0
  | (fuel + 1), n => if 2 ≤ n then log2Aux fuel (n / 2) + 1 else 0

/-- The `log2(size_t sz)` from `utils.hh`, on positive arguments (the source
returns `-1` on zero; the tables never apply it to zero). -/
def log2_src (n : Nat) : Nat := log2Aux n n

/-- The power-of-two test `1 << log2(candidate) == candidate` used by
`next_prime_or_power_of_two`. -/
def isPow2 (c : Nat) : Bool :=
  (1 <<< log2_src c) == c

/-- Fuel-bounded search loop of `next_prime_or_power_of_two`.  The source
recurses on `candidate + 1` without a bound; the next power of two is always
reached within `candidate + 2` steps, so the fuel below never runs out for
the arguments the tables use. -/
def nppAux : Nat → Nat → Nat
  | 0, c => c
  | (fuel + 1), c => if isPow2 c || is_prime c then c else nppAux fuel (c + 1)

/-- The `next_prime_or_power_of_two(unsigned candidate)` from `bucket_size.hh`:
the smallest number that is prime or a power of two and is at least
`candidate`. -/
def next_prime_or_power_of_two (c : Nat) : Nat :=
  nppAux (c + 2) c

/-- The `MediumBucketCandidate<Counter>::value` from `bucket_size.hh`: the
`Counter`-th number (counting from 1) that is prime or a power of two. -/
def MediumBucketCandidate : Nat → Nat
  | 0 => 0
  | 1 => next_prime_or_power_of_two 1
  | (n + 2) => next_prime_or_power_of_two (MediumBucketCandidate (n + 1) + 1)

/-- The `largest_small_bucket()` for an 8-byte pointer (64-bit host). -/
def largest_small_bucket : Nat := 20

/-- The `largest_medium_bucket()` from `bucket_size.hh` (hard-coded 107). -/
def largest_medium_bucket : Nat := 107

/-- The `medium_bucket_for_bucket(unsigned n)` from `bucket_size.hh`. -/
def medium_bucket_for_bucket (n : Nat) : Nat :=
  n + 10 - largest_small_bucket

/-- The `SmallBucketSize(size_t i)` from `bucket_size.hh`, for
`sizeof(void*) = 8` (so `log2<sizeof(void*)>() - 3 = 0`).  The `i > 20`
branch returns `(unsigned)-1` in the source. -/
def SmallBucketSize (i : Nat) : Nat :=
  if i > largest_small_bucket then 4294967295
  else if i < 5 then (i + 1) * 8
  else (1 <<< ((i + 12) >>> 2)) * ((((i + 12) &&& 3) + 4) <<< 0)

/-- The `large_bucket_size(int bucket)` from `bucket_size.hh`. -/
def large_bucket_size (bucket : Nat) : Nat :=
  if bucket < largest_medium_bucket then 0
  else (bucket - largest_medium_bucket) * page_size + 32768

/-- The `BucketSize<Bucket>::value` from `bucket_size.hh`: small / medium /
large regimes selected by the bucket index. -/
def BucketSize (bucket : Nat) : Nat :=
  if bucket ≤ largest_small_bucket then SmallBucketSize bucket
  else if bucket ≤ largest_medium_bucket then
    MediumBucketCandidate (medium_bucket_for_bucket bucket) * cache_line_size
  else large_bucket_size bucket

/-- The `small_bucket_for_size<Bucket>(size_t size)` from `bucket_size.hh`: the
recursive template descending through `Bucket/4`, `Bucket/2`, `Bucket-1`,
with the `Bucket = 0` specialisation returning `-1` for sizes above
`BucketSize<0>`. -/
def small_bucket_for_sizeAux : Nat → Nat → Nat → Int
  | _, 0, size => if size ≤ BucketSize 0 then 0 else -1
  | 0, _ + 1, _ => -1
  | (fuel + 1), (bp + 1), size =>
    if size ≤ BucketSize (bp + 1) ∧ size > BucketSize bp then ((bp + 1 : Nat) : Int)
    else if size ≤ BucketSize ((bp + 1) / 4) then
      small_bucket_for_sizeAux fuel ((bp + 1) / 4) size
    else if size ≤ BucketSize ((bp + 1) / 2) then
      small_bucket_for_sizeAux fuel ((bp + 1) / 2) size
    else small_bucket_for_sizeAux fuel bp size

/-- Entry point of the recursive template: every recursive call strictly
decreases the bucket argument, so a fuel equal to the starting bucket makes
the fuel-bounded recursion above equal to the unbounded template
recursion (the `fuel = 0, bucket > 0` case is never reached). -/
def small_bucket_for_size (b : Nat) (size : Nat) : Int :=
  small_bucket_for_sizeAux b b size

/-- The `large_bucket_for_size(size_t sz)` from `bucket_size.hh`: round the size
up to a page multiple and shift so that 32 KiB maps to large bucket 0.  The
source asserts `32 KiB ≤ sz ≤ chunk_size/4`; on that range the quotient is
at least 8 so the `Int` subtraction matches the C `int` arithmetic. -/
def large_bucket_for_size (sz : Nat) : Int :=
  ((sz + page_size - 1) / page_size : Nat) - (32768 / page_size : Nat)

/-- The `largest_large_bucket()` from `bucket_size.hh`. -/
def largest_large_bucket : Int := large_bucket_for_size (chunk_size / 4)

/-- The `bucket_for_size(size_t sz)` from `bucket_size.hh`: small/medium lookup
below 32 KiB, large lookup below `chunk_size/4`, and the `-1` huge sentinel
above. -/
def bucket_for_size (sz : Nat) : Int :=
  if sz < 32768 then small_bucket_for_size largest_medium_bucket sz
  else if sz < chunk_size / 4 then
    large_bucket_for_size sz + (largest_medium_bucket : Int)
  else -1

/-- The `fixed_buckets` from `bucket_size.hh`. -/
def fixed_buckets : Int := (largest_medium_bucket : Int) + largest_large_bucket

/-! ## Bucket dispatch (`Buckets::allocator_for_bucket`, `src/slab_allocator.hh`) -/

/-- The allocator family chosen by `Buckets::allocator_for_bucket` for a
bucket number. -/
inductive AllocatorKind where
  /-- The `bucket == -1` branch: dispatch to `huge_allocator()`. -/
  | huge
  /-- The `bucket <= largest_medium_bucket()` branch: `small_allocator_factory`. -/
  | small
  /-- The `bucket <= largest_large_bucket()` branch: `large_allocator_factory`. -/
  | large
  /-- The final `else { ASSERT(0); }` branch: no allocator is constructed. -/
  | assertUnreachable
  deriving DecidableEq

/-- The branch structure of `Buckets::allocator_for_bucket`
(`slab_allocator.hh` lines 1209-1253), deciding which allocator factory
serves a bucket number. -/
def allocator_for_bucket_branch (bucket : Int) : AllocatorKind :=
  if bucket = -1 then .huge
  else if bucket ≤ (largest_medium_bucket : Int) then .small
  else if bucket ≤ largest_large_bucket then .large
  else .assertUnreachable

/-! ## `slab_allocator::alloc` entry (`src/slab_allocator.hh` lines 1569-1586)

The body first handles the `size == 0` case, then computes the bucket and
enters a retry loop calling `allocator_for_bucket` and the chunk allocator.
The loop body is abstracted as a step function on an abstract allocator
state, and the unbounded `while (true)` retry loop is given explicit fuel
(returning `none` when the fuel runs out, which the source would instead
spend looping). -/

/-- One retry loop of `slab_allocator::alloc` after the bucket lookup. -/
def slab_alloc_loop {σ α : Type} (allocStep : Int → σ → Option α × σ) :
    Nat → Int → σ → Option α × σ
  | 0, _, s => (none, s)
  | (n + 1), b, s =>
    match allocStep b s with
    | (some a, s2) => (some a, s2)
    | (none, s2) => slab_alloc_loop allocStep n b s2

/-- The `slab_allocator::alloc(size_t size)`: the zero-size guard, the
`bucket_for_size` lookup, and the retry loop. -/
def slab_alloc {σ α : Type} (allocStep : Int → σ → Option α × σ)
    (fuel : Nat) (size : Nat) (st : σ) : Option α × σ :=
  if size == 0 then (none, st)
  else slab_alloc_loop allocStep fuel (bucket_for_size size) st

/-! ## The fixed-size bit set (`src/BitSet.hh`)

`BitSet<S>` stores `ceil(S/64)` 64-bit words; bit `i` lives in word
`i / 64` at MSB-first position `i % 64` (the mask used throughout the
source is `1ULL << (63 - bit)`).  Words are modelled as `Nat` below
`2 ^ 64`; the C `~` complement on `uint64_t` is modelled as XOR with
`2 ^ 64 - 1`, and `__builtin_clzll` (defined for nonzero arguments) as
`64 - Nat.size`. -/

/-- The all-ones 64-bit word (`0xffffffffffffffff`). -/
def allOnes : Nat := 2 ^ 64 - 1

/-- Fuel-bounded bit length; with fuel 64 it computes `Nat.size` on every
64-bit word. -/
def sizeAux : Nat → Nat → Nat
  | 0, _ => 0
  | (fuel + 1), n => if n = 0 then 0 else sizeAux fuel (n / 2) + 1

/-- The bit length of a 64-bit word. -/
def size64 (w : Nat) : Nat := sizeAux 64 w

/-- The `__builtin_clzll` on a (nonzero) 64-bit word: the number of leading
zero bits, i.e. `64` minus the bit length. -/
def clz64 (w : Nat) : Nat := 64 - size64 w

/-- Read the MSB-first bit `b` of a 64-bit word (`w & (1 << (63 - b))`). -/
def wordGet (w : Nat) (b : Nat) : Bool := w.testBit (63 - b)

/-- The `BitSet<S>`: the word array.  The size is a type-level parameter, as in
the source template. -/
structure BitSet (S : Nat) where
  /-- The storage words, least-indexed word first. -/
  bits : List Nat

/-- The `BitSet` constructor: all words zero. -/
def BitSet.init (S : Nat) : BitSet S := ⟨List.replicate ((S + 63) / 64) 0⟩

/-- The `BitSet::operator[]`: read bit `i`. -/
def BitSet.get {S : Nat} (bs : BitSet S) (i : Nat) : Bool :=
  wordGet (bs.bits.getD (i / 64) 0) (i % 64)

/-- The `BitSet::set(i)`: `bits[i/64] |= 1 << (63 - i%64)` (the effect of the
source's compare-and-swap retry loop). -/
def BitSet.set {S : Nat} (bs : BitSet S) (i : Nat) : BitSet S :=
  ⟨bs.bits.set (i / 64) ((bs.bits.getD (i / 64) 0) ||| (1 <<< (63 - i % 64)))⟩

/-- The `BitSet::clear(i)`: `bits[i/64] &= ~(1 << (63 - i%64))`. -/
def BitSet.clear {S : Nat} (bs : BitSet S) (i : Nat) : BitSet S :=
  ⟨bs.bits.set (i / 64) ((bs.bits.getD (i / 64) 0) &&& (allOnes ^^^ (1 <<< (63 - i % 64))))⟩

/-- The word-scanning loop of `BitSet::first_zero`, carrying the running
base index `idx` (incremented by 64 per word, as in the source). -/
def first_zeroAux (S : Nat) : List Nat → Nat → Nat
  | [], _ => S
  | (w :: rest), idx =>
    if w = 0 then idx
    else if w ≠ allOnes then
      (if 0 < clz64 w then idx else idx + clz64 (allOnes ^^^ w))
    else first_zeroAux S rest (idx + 64)

/-- The `BitSet::first_zero()`. -/
def BitSet.first_zero {S : Nat} (bs : BitSet S) : Nat :=
  first_zeroAux S bs.bits 0

/-- The word-scanning loop of `BitSet::one_after`, carrying the current
word index `i` and the in-word start position `bit_idx` (reset to 0 after
the first word, as in the source). -/
def one_afterAux (S : Nat) : List Nat → Nat → Nat → Nat
  | [], _, _ => S
  | (w :: rest), i, bit_idx =>
    if w = 0 then one_afterAux S rest (i + 1) 0
    else
      let mask := if bit_idx = 0 then allOnes else 2 ^ (64 - bit_idx) - 1
      let w2 := w &&& mask
      if w2 = 0 then one_afterAux S rest (i + 1) 0
      else i * 64 + clz64 w2

/-- The `BitSet::one_after(idx)`: increments the index, then scans from word
`(idx+1)/64`, bit `(idx+1)%64`. -/
def BitSet.one_after {S : Nat} (bs : BitSet S) (idx : Nat) : Nat :=
  one_afterAux S (bs.bits.drop ((idx + 1) / 64)) ((idx + 1) / 64) ((idx + 1) % 64)

/-- Well-formedness of a `BitSet` state: the word count of the
constructor, every word within 64 bits, and no bit set at or beyond `S`. -/
def BitSet.Valid (S : Nat) (bs : BitSet S) : Prop :=
  bs.bits.length = (S + 63) / 64 ∧
  (∀ w ∈ bs.bits, w < 2 ^ 64) ∧
  (∀ i, S ≤ i → bs.get i = false)

/-- The states reachable from the constructor by `set`/`clear` calls on
in-range indices (the source asserts `i < S` on both operations). -/
inductive BitSet.Reachable (S : Nat) : BitSet S → Prop
  /-- The freshly constructed bit set. -/
  | init : BitSet.Reachable S (BitSet.init S)
  /-- A `set(i)` call with `i < S`. -/
  | set {b : BitSet S} {i : Nat} : BitSet.Reachable S b → i < S →
      BitSet.Reachable S (b.set i)
  /-- A `clear(i)` call with `i < S`. -/
  | clear {b : BitSet S} {i : Nat} : BitSet.Reachable S b → i < S →
      BitSet.Reachable S (b.clear i)

/-! ### Bit reads through a word list -/

/-- Read bit `k` of a word list (word `k / 64`, MSB-first position
`k % 64`); `BitSet.get` is this applied to the stored words. -/
def listGet (ws : List Nat) (k : Nat) : Bool :=
  wordGet (ws.getD (k / 64) 0) (k % 64)

/-! ## Small/medium slab chunks (`SmallAllocationHeader`, `src/slab_allocator.hh`)

`SmallAllocationHeader<AllocSize, ChunkSize, Header>` manages one chunk of
`ChunkSize` bytes cut into folios of `lcm(page_size, AllocSize)` bytes; the
embedding is parameterized by `A` (`AllocSize`) and `C` (`ChunkSize`) in the
same way.  The in-chunk folio records, the per-`free_count` free lists and
the allocated-bits bitmaps are represented directly; `uint16_t` index
arithmetic keeps the `0xffff` (`not_present`) sentinel, and the `uint32_t`
`free_allocs_total` counter wraps modulo `2^32` as in the source. -/

/-- The `folio::not_present` (`0xffff`). -/
def not_present : Nat := 65535

/-- The Euclidean recursion of `SmallAllocationHeader::gcd(a, b)`
(`b == 0 ? a : gcd(b, a % b)`), fuel-bounded: the second argument strictly
decreases, so fuel `b + 1` always suffices. -/
def gcdAux : Nat → Nat → Nat → Nat
  | 0, a, _ => a
  | (fuel + 1), a, b => if b = 0 then a else gcdAux fuel b (a % b)

/-- The `SmallAllocationHeader::gcd`. -/
def gcd_src (a b : Nat) : Nat := gcdAux (b + 1) a b

/-- The `folio_size`: the least common multiple of the page size and the
allocation size, computed as in the source (`page_size * AllocSize /
gcd(page_size, AllocSize)`). -/
def folio_size (A : Nat) : Nat := page_size * A / gcd_src page_size A

/-- The `allocs_per_folio`. -/
def allocs_per_folio (A : Nat) : Nat := folio_size A / A

/-- The `folios_per_chunk`. -/
def folios_per_chunk (A C : Nat) : Nat := C / folio_size A

/-- The per-folio metadata record (`SmallAllocationHeader::folio`): the
doubly-linked-list indices, the free count, and the allocated-bits bitmap
(the source notes the field `free` is misnamed: bits are *set* for
allocated slots). -/
structure SmallFolio (A : Nat) where
  /-- Index of the previous folio in its free list (`0xffff` if none). -/
  prev : Nat
  /-- Index of the next folio in its free list (`0xffff` if none). -/
  next : Nat
  /-- Number of free slots in this folio. -/
  free_count : Nat
  /-- Bitmap `folio::free`: one bit per slot, set when the slot is allocated. -/
  free : BitSet (allocs_per_folio A)

/-- Placeholder folio used as the `getD` default for (never-taken)
out-of-range reads. -/
def dummyFolio (A : Nat) : SmallFolio A := ⟨0, 0, 0, BitSet.init _⟩

/-- The mutable state of a small/medium chunk header. -/
structure SmallState (A C : Nat) where
  /-- The `folios` array. -/
  folios : List (SmallFolio A)
  /-- The conservative scan hint `free_head`. -/
  free_head : Nat
  /-- The `free_allocs_total` (a `uint32_t`). -/
  free_allocs_total : Nat
  /-- The `free_lists` array of `allocs_per_folio + 1` folio indices. -/
  free_lists : List Nat

/-- Apply an update to the folio record at `idx`. -/
def updateFolio {A : Nat} (fs : List (SmallFolio A)) (idx : Nat)
    (f : SmallFolio A → SmallFolio A) : List (SmallFolio A) :=
  fs.set idx (f (fs.getD idx (dummyFolio A)))

/-- The constructor `SmallAllocationHeader(size_t size)`
(`slab_allocator.hh` lines 416-447): folios covered by the chunk header
(plus five more) are chained with `free_count = 0`, the rest with
`free_count = allocs_per_folio`; `free_lists[allocs_per_folio]` points at
the first non-header folio and `free_lists[0]` at folio 0; the list ends
are patched to `not_present`.  Indices are `uint16_t`, so the `i - 1`
computed for folio 0 wraps to `0xffff`. -/
def small_init (A C : Nat) (size : Nat) : SmallState A C :=
  let apf := allocs_per_folio A
  let fpc := folios_per_chunk A C
  let ffh := (size + (folio_size A - 1)) / folio_size A + 5
  let folios0 := (List.range fpc).map (fun i =>
    if i < ffh then
      (⟨(i + 65535) % 65536, (i + 1) % 65536, 0, BitSet.init apf⟩ : SmallFolio A)
    else
      ⟨(i + 65535) % 65536, (i + 1) % 65536, apf, BitSet.init apf⟩)
  let folios1 := updateFolio folios0 ffh (fun l => { l with prev := not_present })
  let folios2 := updateFolio folios1 (fpc - 1) (fun l => { l with next := not_present })
  let folios3 := updateFolio folios2 (ffh - 1) (fun l => { l with next := not_present })
  let folios4 := updateFolio folios3 0 (fun l => { l with prev := not_present })
  { folios := folios4
    free_head := apf
    free_allocs_total := (fpc - ffh) * apf
    free_lists := ((List.replicate (apf + 1) not_present).set apf ffh).set 0 0 }

/-- The `SmallAllocationHeader::remove_list_entry(uint16_t folio_idx)`
(`slab_allocator.hh` lines 550-565). -/
def remove_list_entry {A C : Nat} (st : SmallState A C) (folio_idx : Nat) :
    SmallState A C :=
  let l := st.folios.getD folio_idx (dummyFolio A)
  let st1 : SmallState A C :=
    if l.prev = not_present then
      { st with free_lists := st.free_lists.set l.free_count l.next }
    else
      { st with folios := updateFolio st.folios l.prev (fun p => { p with next := l.next }) }
  if l.next ≠ not_present then
    { st1 with folios := updateFolio st1.folios l.next (fun n => { n with prev := l.prev }) }
  else st1

/-- The `SmallAllocationHeader::insert_list_entry(uint16_t folio_idx)`
(`slab_allocator.hh` lines 570-580): push the folio at the head of the
free list selected by its current `free_count`. -/
def insert_list_entry {A C : Nat} (st : SmallState A C) (folio_idx : Nat) :
    SmallState A C :=
  let fc := (st.folios.getD folio_idx (dummyFolio A)).free_count
  let head := st.free_lists.getD fc 0
  let fs1 := updateFolio st.folios folio_idx
    (fun l => { l with prev := not_present, next := head })
  let st1 : SmallState A C := { st with folios := fs1 }
  let st2 : SmallState A C :=
    if head ≠ not_present then
      { st1 with folios := updateFolio st1.folios head (fun n => { n with prev := folio_idx }) }
    else st1
  { st2 with free_lists := st2.free_lists.set fc folio_idx }

/-- The `SmallAllocationHeader::free_allocation(size_t offset)`
(`slab_allocator.hh` lines 458-488), under the chunk lock.  Returns the
new state, the list of page-release hints issued (`zero_pages` over
`AllocSize * allocs_per_folio` bytes starting at `offset`), and the
`free_allocs_total == 0` result.  Note the source *decrements*
`free_allocs_total` (modelled with `uint32_t` wrap-around) and issues the
hint when the new `free_count` equals `alloc_in_folio` (the freed slot's
index within the folio). -/
def small_free_allocation {A C : Nat} (st : SmallState A C) (offset : Nat) :
    SmallState A C × List (Nat × Nat) × Bool :=
  let idx := offset / A
  let folio_idx := offset / folio_size A
  let alloc_in_folio := idx % allocs_per_folio A
  let st1 := remove_list_entry st folio_idx
  let fs2 := updateFolio st1.folios folio_idx
    (fun l => { l with free_count := l.free_count + 1 })
  let st2 : SmallState A C := { st1 with folios := fs2 }
  let fs3 := updateFolio st2.folios folio_idx
    (fun l => { l with free := l.free.clear alloc_in_folio })
  let st3 : SmallState A C := { st2 with folios := fs3 }
  let st4 := insert_list_entry st3 folio_idx
  let st5 : SmallState A C := { st4 with free_allocs_total := (st4.free_allocs_total + (2 ^ 32 - 1)) % 2 ^ 32 }
  let hints :=
    if (st5.folios.getD folio_idx (dummyFolio A)).free_count = alloc_in_folio then
      [(offset, A * allocs_per_folio A)]
    else []
  (st5, hints, st5.free_allocs_total == 0)

/-- The `while (free_lists[free_head] == not_present)` scan of
`reserve_allocation`, fuel-bounded (the loop advances `free_head` by one
each step and gives up past `allocs_per_folio`, so fuel
`allocs_per_folio + 1` is always sufficient). -/
def scan_free_listsAux (fl : List Nat) (apf : Nat) : Nat → Nat → Option Nat
  | 0, _ => none
  | (fuel + 1), fh =>
    if fl.getD fh 0 ≠ not_present then some fh
    else if fh + 1 > apf then none
    else scan_free_listsAux fl apf fuel (fh + 1)

/-- The `SmallAllocationHeader::reserve_allocation()` (`slab_allocator.hh`
lines 495-545), under the chunk lock.  `free_head` is reset to 1 before
the scan (the source marks this with a FIXME).  Returns `none` for the
`-1` sentinel. -/
def small_reserve_allocation {A C : Nat} (st : SmallState A C) :
    Option Nat × SmallState A C :=
  match scan_free_listsAux st.free_lists (allocs_per_folio A) (allocs_per_folio A + 1) 1 with
  | none => (none, { st with free_head := allocs_per_folio A + 1 })
  | some fh =>
    let folio_index := st.free_lists.getD fh 0
    let st0 : SmallState A C := { st with free_head := fh }
    let st1 := remove_list_entry st0 folio_index
    let fs2 := updateFolio st1.folios folio_index
      (fun l => { l with free_count := l.free_count - 1 })
    let st2 : SmallState A C := { st1 with folios := fs2 }
    let st3 := insert_list_entry st2 folio_index
    let slot := (st3.folios.getD folio_index (dummyFolio A)).free.first_zero
    let st4 : SmallState A C := { st3 with free_head := fh - 1 }
    let fs5 := updateFolio st4.folios folio_index
      (fun l => { l with free := l.free.set slot })
    let st5 : SmallState A C := { st4 with folios := fs5 }
    let st6 : SmallState A C := { st5 with free_allocs_total := (st5.free_allocs_total + (2 ^ 32 - 1)) % 2 ^ 32 }
    (some (folio_index * folio_size A + slot * A), st6)

/-- Sum of `free_count` over all folios of a chunk. -/
def sumFreeCount {A C : Nat} (st : SmallState A C) : Nat :=
  (st.folios.map SmallFolio.free_count).sum

/-! ## Large slab chunks (`LargeAllocationHeader`, `src/slab_allocator.hh`) -/

/-- The state of a large chunk header (`LargeAllocationHeader<AllocSize,
ChunkSize, Header>`): one allocation slot per class-sized region, a single
allocated-bits bitmap of `ChunkSize / AllocSize` bits, and
`free_allocs_total`. -/
structure LargeState (A C : Nat) where
  /-- The allocated-bits bitmap (set = allocated, as in the source). -/
  free : BitSet (C / A)
  /-- The `free_allocs_total` (a `uint32_t`). -/
  free_allocs_total : Nat

/-- The `LargeAllocationHeader::reserve_allocation()` (`slab_allocator.hh`
lines 699-713): `size_t offset = -1;` then, under the lock and only if
`free_allocs_total > 0`, take the first free slot; finally return
`offset * AllocSize` as 64-bit (`size_t`) arithmetic.  When the chunk is
full, `offset` keeps its `2^64 - 1` initial value and the function returns
`(2^64 - 1) * AllocSize mod 2^64`. -/
def large_reserve_allocation {A C : Nat} (st : LargeState A C) :
    Nat × LargeState A C :=
  if 0 < st.free_allocs_total then
    let o := st.free.first_zero
    ((o * A) % 2 ^ 64,
     { free := st.free.set o, free_allocs_total := st.free_allocs_total - 1 })
  else (((2 ^ 64 - 1) * A) % 2 ^ 64, st)

/-- The `FixedAllocator::alloc(size_t sz)` over a large chunk header
(`slab_allocator.hh` lines 769-780): call `reserve_allocation`, compare
the result against `-1` (`2^64 - 1`), and otherwise return the chunk-based
pointer at that offset with bounds `sz`.  The returned pointer is modelled
by its offset. -/
def fixed_alloc_large {A C : Nat} (sz : Nat) (st : LargeState A C) :
    Option (Nat × Nat) × LargeState A C :=
  let r := large_reserve_allocation st
  if r.1 = 2 ^ 64 - 1 then (none, r.2)
  else (some (r.1, sz), r.2)

/-! ## The fixed-allocator iterator (`fixed_allocator_iterator`,
`src/slab_allocator.hh` lines 1427-1563)

The iterator walks the per-bucket chains of chunk allocators: within a
bucket it follows each allocator's `next` chain to the end, then asks the
exhausted allocator for its bucket number and continues with
`allocator_from_bucket(bucket + 1)` — unless `bucket < 1`, in which case
it stops.  The model represents the bucket table as a list of chains,
each chain a list of allocators, each allocator the list of its live
allocations (collapsing the 64-entry `allocator_fast_iterator` batching,
which only affects how many lock acquisitions the walk takes, not which
allocations it yields).  The unbounded walk is fuel-bounded; the bucket
index strictly increases per step, so fuel `buckets.length + 1` always
suffices. -/

/-- The `fixed_allocator_iterator::allocator_from_bucket(int idx)`
(`slab_allocator.hh` lines 1459-1470): the first bucket at or after `idx`
whose chain head is non-null.  Fuel-bounded (`idx` increases each step). -/
def findBucketAux {α : Type} (buckets : List (List (List α))) : Nat → Nat → Option Nat
  | 0, _ => none
  | (fuel + 1), idx =>
    if idx < buckets.length then
      (if (buckets.getD idx []).isEmpty then findBucketAux buckets fuel (idx + 1)
       else some idx)
    else none

/-- The walk of `fixed_allocator_iterator::fill_iterator`
(`slab_allocator.hh` lines 1474-1520): yield every allocation of the
chain of the first non-empty bucket at or after `b`; at the chain's end,
stop if the exhausted allocator's bucket number is `< 1`, otherwise
continue from the next bucket. -/
def slab_iterate_aux {α : Type} (buckets : List (List (List α))) : Nat → Nat → List α
  | 0, _ => []
  | (fuel + 1), b =>
    match findBucketAux buckets (buckets.length + 1) b with
    | none => []
    | some b2 =>
      (buckets.getD b2 []).flatten ++
        (if b2 < 1 then [] else slab_iterate_aux buckets fuel (b2 + 1))

/-- The complete fixed-allocator iteration, starting from bucket 0. -/
def slab_iterate {α : Type} (buckets : List (List (List α))) : List α :=
  slab_iterate_aux buckets (buckets.length + 1) 0

/-! ## The bump-the-pointer heap (`bump_the_pointer_heap`,
`src/bump_the_pointer_heap.hh`)

`bump_the_pointer_heap<HeapSize, Header>` is modelled by its `start`
offset and the `start_bits` bit set (one bit per `alloc_granularity =
max(alignof(max_align_t), alignof(void*)) = 16` bytes on the 64-bit host
assumed throughout).  `alloc` is modelled for the quiescent single-pass
case (no concurrent GC: the `version` spin loop and `gc` callback retry
are not taken); the `start.fetch_add` is the `start := start + size`
update with `offset` the value before the update. -/

/-- The `alloc_granularity` (16 bytes on the 64-bit host). -/
def alloc_granularity : Nat := 16

/-- The `roundUp<multiple>(val)` from `utils.hh`, for the non-negative
(`size_t`) arguments used here: `((val + (multiple-1)) / multiple) *
multiple`. -/
def roundUp (multiple val : Nat) : Nat :=
  ((val + (multiple - 1)) / multiple) * multiple

/-- The state of a `bump_the_pointer_heap<HeapSize, Header>` with
`sizeof(Header) = HeaderSize` (0 when `Header` is `void`); `heap.length()`
equals `HeapSize` after `allocate_heap`. -/
structure BumpHeap (HeapSize HeaderSize : Nat) where
  /-- The FAT-style object-start bitmap, one bit per granule. -/
  start_bits : BitSet (HeapSize / alloc_granularity)
  /-- The offset of the first unallocated byte. -/
  start : Nat

/-- The `bump_the_pointer_heap::alloc(size_t size)`
(`bump_the_pointer_heap.hh` lines 351-376): `size += header_size`, round
up to the allocation granularity, fetch-add on `start`; on failure
(`offset > heap.length()`) the GC would be invoked (modelled as `none`);
on success set `start_bits[offset / alloc_granularity]`, and return the
pointer at `offset + header_size` with bounds `size - header_size` where
`size` is the *rounded* size.  The result models the pointer as
`(offset-in-heap, bounds)`. -/
def bump_alloc {HeapSize HeaderSize : Nat} (st : BumpHeap HeapSize HeaderSize)
    (size : Nat) : Option (Nat × Nat) × BumpHeap HeapSize HeaderSize :=
  if st.start > HeapSize then
    (none, { st with start := st.start + roundUp alloc_granularity (size + HeaderSize) })
  else
    (some (st.start + HeaderSize,
           roundUp alloc_granularity (size + HeaderSize) - HeaderSize),
     { start_bits := st.start_bits.set (st.start / alloc_granularity),
       start := st.start + roundUp alloc_granularity (size + HeaderSize) })

/-! ## Mark/compact pointer update (`mark_and_compact::update_pointers`,
`src/mark_and_compact.hh` lines 266-315)

The collector template `mark_and_compact<RootSet, Heap>` is generic in the
heap; the embedding is likewise parameterized by the heap operations that
`update_pointers` consumes: `object_for_allocation` (modelled as a lookup
from a capability to the index of the enclosing object) and
`move_reference`.  A capability word is its validity tag plus an address;
the default constructor `capability() : ptr(nullptr)` yields an untagged
(invalid) null capability. -/

/-- The collector colors of `mark_and_compact_object_header`. -/
inductive MCColor where
  /-- Not seen by the GC yet. -/
  | unmarked
  /-- Marked live but not yet scanned. -/
  | marked
  /-- Visited. -/
  | visited
  deriving DecidableEq

/-- The `mark_and_compact_object_header`: displacement (a `uint64_t`; the
relocation amount is this value added with 64-bit wrap-around), color, and
the contains-pointers flag. -/
structure mark_and_compact_object_header where
  /-- Relocation displacement (64-bit, two's-complement non-positive). -/
  displacement : Nat
  /-- The GC color. -/
  color : MCColor
  /-- Whether the mark pass saw any valid pointer inside the object. -/
  contains_pointers : Bool
  deriving DecidableEq

/-- A capability word: validity tag and address. -/
structure Cap where
  /-- The validity tag (`__builtin_cheri_tag_get`). -/
  valid : Bool
  /-- The address. -/
  addr : Nat
  deriving DecidableEq

/-- The default-constructed capability (`capability() : ptr(nullptr)`,
`cheri.hh` line 170): an untagged null pointer. -/
def Cap.null : Cap := ⟨false, 0⟩

/-- A managed allocation as the heap iteration yields it: its header
(`alloc.first`), its base pointer (`alloc.second`) and its
pointer-sized slots. -/
structure MCObj where
  /-- The object header. -/
  header : mark_and_compact_object_header
  /-- The object base pointer. -/
  base : Cap
  /-- The pointer-sized words of the object body. -/
  slots : List Cap
  deriving DecidableEq

/-- Default object for (never-taken) out-of-range list reads. -/
def MCObj.dummy : MCObj := ⟨⟨0, .unmarked, false⟩, Cap.null, []⟩

/-- The `mark_and_compact::update_pointers` (`mark_and_compact.hh` lines
266-315).  First loop: for every root `(slot, value)` whose value resolves
to an object with non-zero displacement, rewrite the slot to
`move_reference(value, displacement)`.  Second loop: for every heap
allocation that is `visited` and `contains_pointers`, scan its slots; for
each slot the source declares `capability<void> ptr_as_cap;`
(default-constructed — *not* initialised from `ptr`) and `continue`s when
`!ptr_as_cap`, so the rewrite
`ptr = move_reference(obj, pointee_header->displacement)` is dead code; it
is nevertheless modelled faithfully after the always-taken `continue`. -/
def mc_update_pointers (objs : List MCObj) (lookup : Cap → Option Nat)
    (moveRef : Cap → Nat → Cap) (roots : List Cap) : List Cap × List MCObj :=
  let roots2 := roots.map (fun r =>
    match lookup r with
    | none => r
    | some oidx =>
      if (objs.getD oidx MCObj.dummy).header.displacement ≠ 0 then
        moveRef r (objs.getD oidx MCObj.dummy).header.displacement
      else r)
  let objs2 := objs.map (fun o =>
    if o.header.color ≠ MCColor.visited then o
    else if ¬ o.header.contains_pointers then o
    else { o with slots := o.slots.map (fun ptr =>
      if ¬ Cap.null.valid then ptr
      else
        match lookup ptr with
        | none => ptr
        | some oidx =>
          if (objs.getD oidx MCObj.dummy).header.displacement = 0 then ptr
          else moveRef (objs.getD oidx MCObj.dummy).base
            (objs.getD oidx MCObj.dummy).header.displacement) })
  (roots2, objs2)

/-! ## Theorems about the bucket tables -/

/-- Any non-negative result of `small_bucket_for_size` names a bucket at
least as large as the requested size. -/
theorem small_bucket_for_sizeAux_le :
    ∀ fuel b size : Nat, ∀ r : Int, small_bucket_for_sizeAux fuel b size = r → 0 ≤ r →
      size ≤ BucketSize r.toNat := by
  intro fuel
  induction fuel with
  | zero =>
    intro b size r hr h0
    match b with
    | 0 =>
      unfold small_bucket_for_sizeAux at hr
      split at hr
      · rename_i hle
        rw [← hr]
        simpa using hle
      · omega
    | (bp + 1) =>
      unfold small_bucket_for_sizeAux at hr
      omega
  | succ fuel ih =>
    intro b size r hr h0
    match b with
    | 0 =>
      unfold small_bucket_for_sizeAux at hr
      split at hr
      · rename_i hle
        rw [← hr]
        simpa using hle
      · omega
    | (bp + 1) =>
      unfold small_bucket_for_sizeAux at hr
      split at hr
      · rename_i hc
        rw [← hr]
        simpa using hc.1
      · split at hr
        · exact ih _ _ _ hr h0
        · split at hr
          · exact ih _ _ _ hr h0
          · exact ih _ _ _ hr h0

/-- Any non-negative result of `small_bucket_for_size` names a bucket at
least as large as the requested size. -/
theorem small_bucket_for_size_le (b size : Nat) (r : Int)
    (hr : small_bucket_for_size b size = r) (h0 : 0 ≤ r) :
    size ≤ BucketSize r.toNat :=
  small_bucket_for_sizeAux_le b b size r hr h0

/-- In the large regime (`32 KiB < s < chunk_size/4`) the selected bucket
is at least as large as the requested size. -/
theorem large_regime_bucket_le (s : Nat) (h1 : 32768 < s) (h2 : s < chunk_size / 4) :
    s ≤ BucketSize (bucket_for_size s).toNat := by
  have hq := Nat.div_add_mod (s + 4095) 4096
  have hrlt : (s + 4095) % 4096 < 4096 := Nat.mod_lt _ (by norm_num)
  have hq9 : 9 ≤ (s + 4095) / 4096 := by
    have h36 : 36864 ≤ s + 4095 := by omega
    calc (9 : Nat) = 36864 / 4096 := by norm_num
    _ ≤ (s + 4095) / 4096 := Nat.div_le_div_right h36
  have hb : bucket_for_size s = (((s + 4095) / 4096 : Nat) : Int) + 99 := by
    unfold bucket_for_size large_bucket_for_size largest_medium_bucket page_size
    rw [if_neg (by omega), if_pos h2]
    omega
  rw [hb]
  have htn : ((((s + 4095) / 4096 : Nat) : Int) + 99).toNat = (s + 4095) / 4096 + 99 := by
    omega
  rw [htn]
  unfold BucketSize large_bucket_size largest_small_bucket largest_medium_bucket page_size
  rw [if_neg (by omega), if_neg (by omega), if_neg (by omega)]
  omega

/-- The candidate search never returns less than its starting point. -/
theorem nppAux_ge (fuel c : Nat) : c ≤ nppAux fuel c := by
  induction fuel generalizing c with
  | zero => simp [nppAux]
  | succ fuel ih =>
    unfold nppAux
    split
    · exact Nat.le_refl c
    · exact Nat.le_of_succ_le (ih (c + 1))

/-- The prime-or-power-of-two candidates strictly increase. -/
theorem MediumBucketCandidate_lt (n : Nat) (h : 1 ≤ n) :
    MediumBucketCandidate n < MediumBucketCandidate (n + 1) := by
  obtain ⟨m, rfl⟩ : ∃ m, n = m + 1 := ⟨n - 1, by omega⟩
  show MediumBucketCandidate (m + 1) < MediumBucketCandidate (m + 2)
  have heq : MediumBucketCandidate (m + 2) =
      next_prime_or_power_of_two (MediumBucketCandidate (m + 1) + 1) := rfl
  unfold next_prime_or_power_of_two at heq
  have hge := nppAux_ge (MediumBucketCandidate (m + 1) + 1 + 2) (MediumBucketCandidate (m + 1) + 1)
  omega

/-- The 97th prime-or-power-of-two candidate, which gives the size of the
largest medium bucket (`461 * 64 = 29504` bytes). -/
theorem MediumBucketCandidate_97 : MediumBucketCandidate 97 = 461 := by decide

/-- The `BucketSize 107 = 29504`: the size of the largest medium bucket. -/
theorem BucketSize_107 : BucketSize 107 = 29504 := by
  unfold BucketSize medium_bucket_for_bucket largest_small_bucket largest_medium_bucket
    cache_line_size
  rw [if_neg (by omega), if_pos (by omega)]
  norm_num [MediumBucketCandidate_97]

/-- Strict monotonicity of the bucket-size table across all three regimes. -/
theorem BucketSize_strictMono : ∀ i < 226, BucketSize i < BucketSize (i + 1) := by
  intro i hi
  by_cases h1 : i < 21
  · revert h1
    revert i
    decide
  · by_cases h2 : i < 107
    · have hbi : BucketSize i =
          MediumBucketCandidate (medium_bucket_for_bucket i) * cache_line_size := by
        unfold BucketSize
        rw [if_neg (by unfold largest_small_bucket; omega),
          if_pos (by unfold largest_medium_bucket; omega)]
      have hbi1 : BucketSize (i + 1) =
          MediumBucketCandidate (medium_bucket_for_bucket (i + 1)) * cache_line_size := by
        unfold BucketSize
        rw [if_neg (by unfold largest_small_bucket; omega),
          if_pos (by unfold largest_medium_bucket; omega)]
      rw [hbi, hbi1]
      have hmb : medium_bucket_for_bucket (i + 1) = medium_bucket_for_bucket i + 1 := by
        unfold medium_bucket_for_bucket largest_small_bucket
        omega
      rw [hmb]
      have hlt := MediumBucketCandidate_lt (medium_bucket_for_bucket i)
        (by unfold medium_bucket_for_bucket largest_small_bucket; omega)
      have hcl : 0 < cache_line_size := by unfold cache_line_size; omega
      exact (Nat.mul_lt_mul_right hcl).mpr hlt
    · by_cases h3 : i = 107
      · subst h3
        rw [BucketSize_107]
        unfold BucketSize large_bucket_size largest_small_bucket largest_medium_bucket
          page_size
        rw [if_neg (by omega), if_neg (by omega), if_neg (by omega)]
        omega
      · have hbi : BucketSize i = (i - 107) * page_size + 32768 := by
          unfold BucketSize large_bucket_size largest_small_bucket largest_medium_bucket
          rw [if_neg (by omega), if_neg (by omega), if_neg (by omega)]
        have hbi1 : BucketSize (i + 1) = (i + 1 - 107) * page_size + 32768 := by
          unfold BucketSize large_bucket_size largest_small_bucket largest_medium_bucket
          rw [if_neg (by omega), if_neg (by omega), if_neg (by omega)]
        rw [hbi, hbi1]
        unfold page_size
        have : 108 ≤ i := by omega
        omega

/-- C2 counterexample: at the small/medium-to-large boundary `s = 32 KiB`
the claim fails: `bucket_for_size(32768)` selects bucket 107 (the largest
*medium* bucket, of size 29504 bytes), so the selected bucket's size is
smaller than the requested size. -/
theorem C2_bucket_table_counterexample :
    bucket_for_size 32768 = 107 ∧ BucketSize 107 = 29504 ∧
    ¬ (32768 ≤ BucketSize (bucket_for_size 32768).toNat) := by
  refine ⟨by decide, BucketSize_107, ?_⟩
  intro h
  have h1 : bucket_for_size 32768 = 107 := by decide
  rw [h1] at h
  have h2 : (107 : Int).toNat = 107 := by decide
  rw [h2, BucketSize_107] at h
  omega

/-- The bucket-size table is monotone (non-strictly) on indices up to 226. -/
theorem BucketSize_mono : ∀ k : Nat, k ≤ 226 → ∀ j : Nat, j ≤ k →
    BucketSize j ≤ BucketSize k := by
  intro k
  induction k with
  | zero =>
    intro _ j hj
    have hj0 : j = 0 := by omega
    rw [hj0]
  | succ k ih =>
    intro hk j hj
    by_cases h : j = k + 1
    · rw [h]
    · have h1 : BucketSize j ≤ BucketSize k := ih (by omega) j (by omega)
      have h2 : BucketSize k < BucketSize (k + 1) := BucketSize_strictMono k (by omega)
      omega

/-- For a size within the starting bucket, the recursive template never
returns the `-1` sentinel (each recursive call keeps the size within its
new bucket argument). -/
theorem small_bucket_for_sizeAux_nonneg :
    ∀ fuel b size : Nat, b ≤ fuel → size ≤ BucketSize b →
      0 ≤ small_bucket_for_sizeAux fuel b size := by
  intro fuel
  induction fuel with
  | zero =>
    intro b size hb hs
    have hb0 : b = 0 := by omega
    subst hb0
    unfold small_bucket_for_sizeAux
    rw [if_pos hs]
  | succ fuel ih =>
    intro b size hb hs
    match b with
    | 0 =>
      unfold small_bucket_for_sizeAux
      rw [if_pos hs]
    | (bp + 1) =>
      unfold small_bucket_for_sizeAux
      split
      · omega
      · rename_i hc
        have hsle : size ≤ BucketSize bp := by
          by_cases hgt : size > BucketSize bp
          · exact absurd ⟨hs, hgt⟩ hc
          · omega
        split
        · rename_i hc2
          exact ih _ _ (by omega) hc2
        · split
          · rename_i hc3
            exact ih _ _ (by omega) hc3
          · exact ih _ _ (by omega) hsle

/-- For a size above the starting bucket (at most 107), the recursive
template falls through every branch and returns the `-1` sentinel. -/
theorem small_bucket_for_sizeAux_huge :
    ∀ fuel b size : Nat, b ≤ fuel → b ≤ 107 → BucketSize b < size →
      small_bucket_for_sizeAux fuel b size = -1 := by
  intro fuel
  induction fuel with
  | zero =>
    intro b size hb h107 hs
    have hb0 : b = 0 := by omega
    subst hb0
    unfold small_bucket_for_sizeAux
    rw [if_neg (by omega)]
  | succ fuel ih =>
    intro b size hb h107 hs
    match b with
    | 0 =>
      unfold small_bucket_for_sizeAux
      rw [if_neg (by omega)]
    | (bp + 1) =>
      have h4 : BucketSize ((bp + 1) / 4) ≤ BucketSize (bp + 1) :=
        BucketSize_mono (bp + 1) (by omega) _ (by omega)
      have h2 : BucketSize ((bp + 1) / 2) ≤ BucketSize (bp + 1) :=
        BucketSize_mono (bp + 1) (by omega) _ (by omega)
      have hp : BucketSize bp < BucketSize (bp + 1) := BucketSize_strictMono bp (by omega)
      unfold small_bucket_for_sizeAux
      rw [if_neg (by omega), if_neg (by omega), if_neg (by omega)]
      exact ih bp size (by omega) (by omega) (by omega)

/-- C2 (amended): adjacent fixed buckets are strictly monotone in size
(`bucket_size[i] < bucket_size[i+1]` for all `i` with `i+1 < 227 =
fixed_buckets`), and over the claimed range `s ≤ chunk_size/4` the lookup
behaves as claimed only piecewise: for every `s ≤ 29504` (the size of the
largest medium bucket 107) and for every `32768 < s < chunk_size/4`,
`bucket_for_size(s)` is a fixed bucket whose size is at least `s`; for
`29504 < s < 32768` it returns the huge sentinel `-1` instead of a fixed
bucket; at `s = 32768` exactly it returns the undersized medium bucket
107; and at `s = chunk_size/4` exactly it returns the huge sentinel. -/
theorem C2_bucket_table_amended :
    (∀ i < 226, BucketSize i < BucketSize (i + 1)) ∧
    BucketSize 107 = 29504 ∧
    (∀ s : Nat, s ≤ 29504 →
      0 ≤ bucket_for_size s ∧ s ≤ BucketSize (bucket_for_size s).toNat) ∧
    (∀ s : Nat, 29504 < s → s < 32768 → bucket_for_size s = -1) ∧
    bucket_for_size 32768 = 107 ∧
    (∀ s : Nat, 32768 < s → s < chunk_size / 4 →
      0 ≤ bucket_for_size s ∧ s ≤ BucketSize (bucket_for_size s).toNat) ∧
    bucket_for_size (chunk_size / 4) = -1 := by
  refine ⟨BucketSize_strictMono, BucketSize_107, ?_, ?_, by decide, ?_, by decide⟩
  · intro s hs
    have hs32 : s < 32768 := by omega
    have hsmall : bucket_for_size s = small_bucket_for_size 107 s := by
      unfold bucket_for_size
      rw [if_pos hs32]
      rfl
    have hnn : 0 ≤ small_bucket_for_size 107 s :=
      small_bucket_for_sizeAux_nonneg 107 107 s (by omega) (by rw [BucketSize_107]; omega)
    refine ⟨by rw [hsmall]; exact hnn, ?_⟩
    rw [hsmall]
    exact small_bucket_for_size_le 107 s _ rfl hnn
  · intro s h1 h2
    unfold bucket_for_size
    rw [if_pos h2]
    exact small_bucket_for_sizeAux_huge 107 107 s (by omega) (by omega)
      (by rw [BucketSize_107]; omega)
  · intro s h1 h2
    refine ⟨?_, large_regime_bucket_le s h1 h2⟩
    unfold bucket_for_size large_bucket_for_size largest_medium_bucket page_size
    rw [if_neg (by omega), if_pos h2]
    omega

/-- C2 witness: the amended theorem applied at concrete inputs: bucket 3 is
strictly smaller than bucket 4; a 42-byte request is served by a fixed
bucket of at least 42 bytes; a 30000-byte request (inside the mishandled
band) gets the huge sentinel; and a 100000-byte request is served by a
fixed bucket of at least 100000 bytes. -/
theorem C2_bucket_table_witness :
    BucketSize 3 < BucketSize 4 ∧
    (0 ≤ bucket_for_size 42 ∧ (42 : Nat) ≤ BucketSize (bucket_for_size 42).toNat) ∧
    bucket_for_size 30000 = -1 ∧
    (0 ≤ bucket_for_size 100000 ∧
      (100000 : Nat) ≤ BucketSize (bucket_for_size 100000).toNat) :=
  ⟨C2_bucket_table_amended.1 3 (by decide),
   C2_bucket_table_amended.2.2.1 42 (by decide),
   C2_bucket_table_amended.2.2.2.1 30000 (by decide) (by decide),
   C2_bucket_table_amended.2.2.2.2.2.1 100000 (by decide) (by decide)⟩

/-- C4: the large-regime routing is *not* total.  For the in-range request
size `s = 100000` (between 32 KiB and `chunk_size/4`), `bucket_for_size`
returns the global bucket index 124, which `allocator_for_bucket` compares
against `largest_large_bucket() = 120` (a *local* large-bucket index), so
the `ASSERT(0)` branch is reached and no allocator is constructed. -/
theorem C4_large_routing_assert_reachable :
    (32768 ≤ 100000 ∧ 100000 < chunk_size / 4) ∧
    bucket_for_size 100000 = 124 ∧
    largest_large_bucket = 120 ∧
    allocator_for_bucket_branch (bucket_for_size 100000) = .assertUnreachable := by
  refine ⟨by decide, by decide, by decide, ?_⟩
  have h : bucket_for_size 100000 = 124 := by decide
  rw [h]
  decide

/-- C10: `slab_allocator::alloc(0)` returns null before the bucket lookup
and without touching the allocator state: for every abstract allocator
state, every per-bucket allocation step and every amount of retry fuel, the
result is `none` and the state is returned unchanged.  The bucket tables
would nevertheless assign size 0 to bucket 0 (`bucket_for_size 0 = 0`,
`bucket_size[0] = 8`). -/
theorem C10_alloc_zero_returns_null {σ α : Type}
    (allocStep : Int → σ → Option α × σ) (fuel : Nat) (st : σ) :
    slab_alloc allocStep fuel 0 st = (none, st) ∧
    bucket_for_size 0 = 0 ∧ BucketSize 0 = 8 := by
  refine ⟨?_, by decide, by decide⟩
  unfold slab_alloc
  simp

/-! ## Theorems about the bit set -/

/-! ### Word-level lemmas about `clz64` and `wordGet` -/

/-- The fuel-bounded bit length agrees with `Nat.size` when the fuel
covers the argument. -/
theorem sizeAux_eq : ∀ fuel n : Nat, n < 2 ^ fuel → sizeAux fuel n = n.size := by
  intro fuel
  induction fuel with
  | zero =>
    intro n h
    have hn : n = 0 := by
      have : (2 : Nat) ^ 0 = 1 := by norm_num
      omega
    subst hn
    rw [Nat.size_zero]
    rfl
  | succ fuel ih =>
    intro n h
    by_cases h0 : n = 0
    · subst h0
      simp [sizeAux, Nat.size_zero]
    · have hdiv : n / 2 < 2 ^ fuel := by
        rw [Nat.div_lt_iff_lt_mul (by omega)]
        calc n < 2 ^ (fuel + 1) := h
        _ = 2 ^ fuel * 2 := by rw [pow_succ]
      unfold sizeAux
      rw [if_neg h0, ih _ hdiv]
      have hb := Nat.bit_decomp n
      have hne : Nat.bit n.bodd n.div2 ≠ 0 := by rw [hb]; exact h0
      have hsz := Nat.size_bit hne
      rw [hb, Nat.div2_val] at hsz
      omega

/-- The `size64` agrees with `Nat.size` on 64-bit words. -/
theorem size64_eq {w : Nat} (h : w < 2 ^ 64) : size64 w = w.size := sizeAux_eq 64 w h

/-- The leading set bit of a nonzero 64-bit word sits at MSB-first
position `clz64 w`. -/
theorem wordGet_clz64_self {w : Nat} (h0 : w ≠ 0) (h64 : w < 2 ^ 64) :
    wordGet w (clz64 w) = true := by
  have hpos : 0 < w.size := Nat.size_pos.mpr (Nat.pos_of_ne_zero h0)
  have hle : w.size ≤ 64 := Nat.size_le.mpr h64
  have h1 : 63 - clz64 w = w.size - 1 := by
    unfold clz64
    rw [size64_eq h64]
    omega
  unfold wordGet
  rw [h1]
  have hlow : 2 ^ (w.size - 1) ≤ w := Nat.lt_size.mp (by omega)
  have hs : w.size - 1 + 1 = w.size := by omega
  have hhigh : w < 2 * 2 ^ (w.size - 1) := by
    have hx := Nat.lt_size_self w
    rw [← hs, pow_succ] at hx
    omega
  have hdiv : w / 2 ^ (w.size - 1) = 1 := by
    have hpow : 0 < 2 ^ (w.size - 1) := Nat.pos_pow_of_pos _ (by omega)
    have := Nat.div_le_div_right (c := 2 ^ (w.size - 1)) hlow
    rw [Nat.div_self hpow] at this
    have hlt : w / 2 ^ (w.size - 1) < 2 := by
      rw [Nat.div_lt_iff_lt_mul hpow]
      omega
    omega
  rw [Nat.testBit_to_div_mod, hdiv]
  decide

/-- Bits strictly before `clz64 w` are clear. -/
theorem wordGet_false_of_lt_clz64 {w j : Nat} (h64 : w < 2 ^ 64) (hj : j < clz64 w) :
    wordGet w j = false := by
  unfold wordGet
  apply Nat.testBit_lt_two_pow
  have hsz : w.size ≤ 63 - j := by
    unfold clz64 at hj
    rw [size64_eq h64] at hj
    omega
  calc w < 2 ^ w.size := Nat.lt_size_self w
  _ ≤ 2 ^ (63 - j) := Nat.pow_le_pow_right (by omega) hsz

theorem clz64_le_63 {w : Nat} (h0 : w ≠ 0) : clz64 w ≤ 63 := by
  have hstep : size64 w = sizeAux 63 (w / 2) + 1 := by
    show sizeAux (63 + 1) w = sizeAux 63 (w / 2) + 1
    conv_lhs => rw [sizeAux]
    rw [if_neg h0]
  unfold clz64
  omega

theorem wordGet_zero (j : Nat) : wordGet 0 j = false := by
  unfold wordGet
  exact Nat.zero_testBit _

theorem wordGet_allOnes {j : Nat} (hj : j ≤ 63) : wordGet allOnes j = true := by
  unfold wordGet allOnes
  rw [Nat.testBit_two_pow_sub_one]
  simp only [decide_eq_true_eq]
  omega

theorem wordGet_xor (a b j : Nat) :
    wordGet (a ^^^ b) j = ((wordGet a j).xor (wordGet b j)) := by
  unfold wordGet
  exact Nat.testBit_xor a b _

theorem wordGet_compl {w j : Nat} (hj : j ≤ 63) :
    wordGet (allOnes ^^^ w) j = ! wordGet w j := by
  rw [wordGet_xor, wordGet_allOnes hj]
  cases wordGet w j <;> rfl

theorem wordGet_and (a b j : Nat) :
    wordGet (a &&& b) j = (wordGet a j && wordGet b j) := by
  unfold wordGet
  exact Nat.testBit_and a b _

theorem wordGet_or (a b j : Nat) :
    wordGet (a ||| b) j = (wordGet a j || wordGet b j) := by
  unfold wordGet
  exact Nat.testBit_or a b _

/-- The single-bit mask `1 << (63 - k)` reads as the indicator of `k`. -/
theorem wordGet_single {k j : Nat} (hk : k ≤ 63) (hj : j ≤ 63) :
    wordGet (1 <<< (63 - k)) j = decide (j = k) := by
  unfold wordGet
  rw [Nat.shiftLeft_eq, one_mul, Nat.testBit_two_pow]
  simp only [decide_eq_decide]
  omega

/-- The low-bits mask used by `one_after` keeps exactly the in-word
positions at or after `bit_idx`. -/
theorem wordGet_lowMask {bit_idx j : Nat} (hb : bit_idx ≤ 63) (hj : j ≤ 63) :
    wordGet (2 ^ (64 - bit_idx) - 1) j = decide (bit_idx ≤ j) := by
  unfold wordGet
  rw [Nat.testBit_two_pow_sub_one]
  simp only [decide_eq_decide]
  omega

theorem BitSet.get_eq_listGet {S : Nat} (bs : BitSet S) (i : Nat) :
    bs.get i = listGet bs.bits i := rfl

theorem listGet_cons_lt {w : Nat} {rest : List Nat} {k : Nat} (h : k < 64) :
    listGet (w :: rest) k = wordGet w k := by
  unfold listGet
  rw [Nat.div_eq_of_lt h, Nat.mod_eq_of_lt h, List.getD_cons_zero]

theorem listGet_cons_ge {w : Nat} {rest : List Nat} {k : Nat} (h : 64 ≤ k) :
    listGet (w :: rest) k = listGet rest (k - 64) := by
  obtain ⟨m, rfl⟩ : ∃ m, k = m + 64 := ⟨k - 64, by omega⟩
  unfold listGet
  rw [Nat.add_div_right m (by omega), Nat.add_mod_right, List.getD_cons_succ,
    Nat.add_sub_cancel]

/-! ### Correctness of the `first_zero` scan -/

/-- The word scan of `first_zero` either reports every bit of the scanned
words set (returning `S`), or returns `idx` plus the position of the first
clear bit. -/
theorem first_zeroAux_spec (S : Nat) :
    ∀ ws : List Nat, ∀ idx : Nat, (∀ w ∈ ws, w < 2 ^ 64) →
    (first_zeroAux S ws idx = S ∧ ∀ k, k < 64 * ws.length → listGet ws k = true) ∨
    (∃ k, first_zeroAux S ws idx = idx + k ∧ k < 64 * ws.length ∧
      listGet ws k = false ∧ ∀ j, j < k → listGet ws j = true) := by
  intro ws
  induction ws with
  | nil =>
    intro idx _
    left
    refine ⟨rfl, ?_⟩
    intro k hk
    simp at hk
  | cons w rest ih =>
    intro idx hbound
    have hw : w < 2 ^ 64 := hbound w (List.mem_cons_self w rest)
    have hrest : ∀ x ∈ rest, x < 2 ^ 64 := fun x hx => hbound x (List.mem_cons_of_mem w hx)
    have hlen : (w :: rest).length = rest.length + 1 := List.length_cons w rest
    by_cases h0 : w = 0
    · right
      refine ⟨0, ?_, by rw [hlen]; omega, ?_, by omega⟩
      · unfold first_zeroAux
        rw [if_pos h0, Nat.add_zero]
      · rw [listGet_cons_lt (by omega), h0]
        exact wordGet_zero 0
    · by_cases h1 : w = allOnes
      · -- all 64 bits of this word are set: skip to the next word
        have hstep : first_zeroAux S (w :: rest) idx = first_zeroAux S rest (idx + 64) := by
          conv_lhs => rw [first_zeroAux]
          rw [if_neg h0, if_neg (by simp [h1])]
        rcases ih (idx + 64) hrest with ⟨hres, hall⟩ | ⟨k, hres, hk, hget, hmin⟩
        · left
          refine ⟨by rw [hstep, hres], ?_⟩
          intro k hk
          by_cases hk64 : k < 64
          · rw [listGet_cons_lt hk64, h1]
            exact wordGet_allOnes (by omega)
          · rw [listGet_cons_ge (by omega)]
            exact hall _ (by rw [hlen] at hk; omega)
        · right
          refine ⟨64 + k, ?_, by rw [hlen]; omega, ?_, ?_⟩
          · rw [hstep, hres]; omega
          · rw [listGet_cons_ge (by omega), Nat.add_sub_cancel_left]
            exact hget
          · intro j hj
            by_cases hj64 : j < 64
            · rw [listGet_cons_lt hj64, h1]
              exact wordGet_allOnes (by omega)
            · rw [listGet_cons_ge (by omega)]
              exact hmin _ (by omega)
      · -- this word has both set and clear bits (or is headed by a clear bit)
        have hcompl0 : allOnes ^^^ w ≠ 0 := by
          intro hx
          exact h1 (Nat.xor_eq_zero.mp hx).symm
        have hwle : w ≤ allOnes := by unfold allOnes; omega
        by_cases hclz : 0 < clz64 w
        · -- the top bit of the word is clear
          right
          refine ⟨0, ?_, by rw [hlen]; omega, ?_, by omega⟩
          · unfold first_zeroAux
            rw [if_neg h0, if_pos (by simp [h1]), if_pos hclz, Nat.add_zero]
          · rw [listGet_cons_lt (by omega)]
            exact wordGet_false_of_lt_clz64 hw hclz
        · -- the first clear bit is at `clz64 (~w)`
          right
          set c := allOnes ^^^ w with hc
          have hc64 : c < 2 ^ 64 := Nat.xor_lt_two_pow (by unfold allOnes; omega) hw
          have hcle : clz64 c ≤ 63 := clz64_le_63 hcompl0
          refine ⟨clz64 c, ?_, by rw [hlen]; omega, ?_, ?_⟩
          · unfold first_zeroAux
            rw [if_neg h0, if_pos (by simp [h1]), if_neg hclz]
          · rw [listGet_cons_lt (by omega)]
            have h2 := wordGet_clz64_self hcompl0 hc64
            have h3 := wordGet_compl (w := w) (j := clz64 c) (by omega)
            rw [← hc] at h3
            rw [h3] at h2
            cases hx : wordGet w (clz64 c)
            · rfl
            · rw [hx] at h2; simp at h2
          · intro j hj
            rw [listGet_cons_lt (by omega)]
            have h2 := wordGet_false_of_lt_clz64 (w := c) hc64 hj
            have h3 := wordGet_compl (w := w) (j := j) (by omega)
            rw [← hc] at h3
            rw [h3] at h2
            cases hx : wordGet w j
            · rw [hx] at h2; simp at h2
            · rfl

/-! ### Correctness of the `one_after` scan -/

/-- The word scan of `one_after` either finds no set bit at suffix position
`bit_idx` or later (returning `S`), or returns the absolute index
(`64 * i` plus in-suffix position) of the first such set bit. -/
theorem one_afterAux_spec (S : Nat) :
    ∀ ws : List Nat, ∀ i bit_idx : Nat, (∀ w ∈ ws, w < 2 ^ 64) → bit_idx ≤ 63 →
    (one_afterAux S ws i bit_idx = S ∧
      ∀ p, bit_idx ≤ p → p < 64 * ws.length → listGet ws p = false) ∨
    (∃ p, one_afterAux S ws i bit_idx = i * 64 + p ∧ bit_idx ≤ p ∧ p < 64 * ws.length ∧
      listGet ws p = true ∧ ∀ q, bit_idx ≤ q → q < p → listGet ws q = false) := by
  intro ws
  induction ws with
  | nil =>
    intro i bit_idx _ _
    left
    refine ⟨rfl, ?_⟩
    intro p _ hp
    simp at hp
  | cons w rest ih =>
    intro i bit_idx hbound hbit
    have hw : w < 2 ^ 64 := hbound w (List.mem_cons_self w rest)
    have hrest : ∀ x ∈ rest, x < 2 ^ 64 := fun x hx => hbound x (List.mem_cons_of_mem w hx)
    have hlen : (w :: rest).length = rest.length + 1 := List.length_cons w rest
    have hm : (if bit_idx = 0 then allOnes else 2 ^ (64 - bit_idx) - 1) =
        2 ^ (64 - bit_idx) - 1 := by
      split
      · rename_i hz
        subst hz
        rfl
      · rfl
    have hunfold : one_afterAux S (w :: rest) i bit_idx =
        (if w = 0 then one_afterAux S rest (i + 1) 0
         else if w &&& (if bit_idx = 0 then allOnes else 2 ^ (64 - bit_idx) - 1) = 0 then
           one_afterAux S rest (i + 1) 0
         else i * 64 + clz64 (w &&& (if bit_idx = 0 then allOnes else 2 ^ (64 - bit_idx) - 1))) :=
      rfl
    rw [hm] at hunfold
    have hw2get : ∀ q : Nat, q ≤ 63 →
        wordGet (w &&& (2 ^ (64 - bit_idx) - 1)) q = (wordGet w q && decide (bit_idx ≤ q)) := by
      intro q hq
      rw [wordGet_and, wordGet_lowMask hbit hq]
    -- the two branches that skip to the next word share their reasoning:
    -- in both, no bit of the first word at position `≥ bit_idx` is set.
    have hskip : ∀ hfw : (∀ q, bit_idx ≤ q → q ≤ 63 → wordGet w q = false),
        one_afterAux S (w :: rest) i bit_idx = one_afterAux S rest (i + 1) 0 →
        (one_afterAux S (w :: rest) i bit_idx = S ∧
          ∀ p, bit_idx ≤ p → p < 64 * (w :: rest).length → listGet (w :: rest) p = false) ∨
        (∃ p, one_afterAux S (w :: rest) i bit_idx = i * 64 + p ∧ bit_idx ≤ p ∧
          p < 64 * (w :: rest).length ∧ listGet (w :: rest) p = true ∧
          ∀ q, bit_idx ≤ q → q < p → listGet (w :: rest) q = false) := by
      intro hfw hstep
      rcases ih (i + 1) 0 hrest (by omega) with ⟨hres, hall⟩ | ⟨p, hres, _, hplt, htrue, hmin⟩
      · left
        refine ⟨by rw [hstep, hres], ?_⟩
        intro p hpb hp
        by_cases hp64 : p < 64
        · rw [listGet_cons_lt hp64]
          exact hfw p hpb (by omega)
        · rw [listGet_cons_ge (by omega)]
          exact hall _ (by omega) (by rw [hlen] at hp; omega)
      · right
        refine ⟨64 + p, ?_, by omega, by rw [hlen]; omega, ?_, ?_⟩
        · rw [hstep, hres]; omega
        · rw [listGet_cons_ge (by omega), Nat.add_sub_cancel_left]
          exact htrue
        · intro q hqb hq
          by_cases hq64 : q < 64
          · rw [listGet_cons_lt hq64]
            exact hfw q hqb (by omega)
          · rw [listGet_cons_ge (by omega)]
            exact hmin _ (by omega) (by omega)
    by_cases h0 : w = 0
    · refine hskip ?_ (by rw [hunfold, if_pos h0])
      intro q _ _
      rw [h0]
      exact wordGet_zero q
    · by_cases h2 : w &&& (2 ^ (64 - bit_idx) - 1) = 0
      · refine hskip ?_ (by rw [hunfold, if_neg h0, if_pos h2])
        intro q hqb hq63
        have := hw2get q hq63
        rw [h2, wordGet_zero] at this
        have hd : decide (bit_idx ≤ q) = true := by simp [hqb]
        rw [hd, Bool.and_true] at this
        exact this.symm
      · -- a set bit exists in the first word at or after `bit_idx`
        right
        have hres : one_afterAux S (w :: rest) i bit_idx =
            i * 64 + clz64 (w &&& (2 ^ (64 - bit_idx) - 1)) := by
          rw [hunfold, if_neg h0, if_neg h2]
        set w2 := w &&& (2 ^ (64 - bit_idx) - 1) with hw2
        have hp63 : clz64 w2 ≤ 63 := clz64_le_63 h2
        have hself := wordGet_clz64_self h2 (Nat.lt_of_le_of_lt Nat.and_le_left hw)
        have hget := hw2get (clz64 w2) (by omega)
        rw [hget] at hself
        have htrue : wordGet w (clz64 w2) = true := by
          cases hx : wordGet w (clz64 w2)
          · rw [hx] at hself; simp at hself
          · rfl
        have hbitle : bit_idx ≤ clz64 w2 := by
          by_contra hcon
          have hd : decide (bit_idx ≤ clz64 w2) = false := by
            simp [hcon]
          rw [hd, Bool.and_false] at hself
          exact Bool.false_ne_true hself
        refine ⟨clz64 w2, hres, hbitle, by rw [hlen]; omega, ?_, ?_⟩
        · rw [listGet_cons_lt (by omega)]
          exact htrue
        · intro q hqb hq
          rw [listGet_cons_lt (by omega)]
          have hfalse := wordGet_false_of_lt_clz64 (w := w2)
            (Nat.lt_of_le_of_lt Nat.and_le_left hw) hq
          have hgq := hw2get q (by omega)
          rw [hgq] at hfalse
          have hd : decide (bit_idx ≤ q) = true := by simp [hqb]
          rw [hd, Bool.and_true] at hfalse
          exact hfalse


/-! ### Well-formedness of reachable bit sets -/

theorem getD_lt_two_pow {l : List Nat} (hb : ∀ w ∈ l, w < 2 ^ 64) (n : Nat) :
    l.getD n 0 < 2 ^ 64 := by
  by_cases h : n < l.length
  · rw [List.getD_eq_getElem?_getD, List.getElem?_eq_getElem h]
    exact hb _ (List.getElem_mem h)
  · rw [List.getD_eq_getElem?_getD, List.getElem?_eq_none (by omega)]
    norm_num

theorem BitSet.valid_init (S : Nat) : BitSet.Valid S (BitSet.init S) := by
  refine ⟨List.length_replicate _ _, ?_, ?_⟩
  · intro w hw
    rw [List.eq_of_mem_replicate hw]
    norm_num
  · intro i _
    show wordGet ((List.replicate ((S + 63) / 64) 0).getD (i / 64) 0) (i % 64) = false
    have hz : (List.replicate ((S + 63) / 64) (0 : Nat)).getD (i / 64) 0 = 0 := by
      rw [List.getD_eq_getElem?_getD, List.getElem?_replicate]
      split <;> rfl
    rw [hz]
    exact wordGet_zero _

theorem BitSet.valid_set {S : Nat} {bs : BitSet S} {i : Nat}
    (hv : BitSet.Valid S bs) (hi : i < S) : BitSet.Valid S (bs.set i) := by
  obtain ⟨hlen, hbound, hpad⟩ := hv
  have hrange : i / 64 < bs.bits.length := by rw [hlen]; omega
  refine ⟨by rw [← hlen]; exact List.length_set _ _ _, ?_, ?_⟩
  · intro w hw
    rcases List.mem_or_eq_of_mem_set hw with hmem | heq
    · exact hbound w hmem
    · rw [heq]
      apply Nat.or_lt_two_pow (getD_lt_two_pow hbound _)
      rw [Nat.shiftLeft_eq, one_mul]
      exact Nat.pow_lt_pow_right (by omega) (by omega)
  · intro k hk
    show wordGet ((bs.bits.set (i / 64)
      ((bs.bits.getD (i / 64) 0) ||| (1 <<< (63 - i % 64)))).getD (k / 64) 0) (k % 64) = false
    by_cases hd : k / 64 = i / 64
    · rw [hd, List.getD_eq_getElem?_getD, List.getElem?_set_self hrange]
      show wordGet ((bs.bits.getD (i / 64) 0) ||| (1 <<< (63 - i % 64))) (k % 64) = false
      rw [wordGet_or]
      have h1 : wordGet (bs.bits.getD (i / 64) 0) (k % 64) = false := by
        have := hpad k hk
        rw [BitSet.get_eq_listGet] at this
        unfold listGet at this
        rw [← hd]
        exact this
      have h2 : wordGet (1 <<< (63 - i % 64)) (k % 64) = false := by
        rw [wordGet_single (by omega) (by omega)]
        simp only [decide_eq_false_iff_not]
        omega
      rw [h1, h2]
      rfl
    · rw [List.getD_eq_getElem?_getD, List.getElem?_set_ne (fun h => hd h.symm)]
      have := hpad k hk
      rw [BitSet.get_eq_listGet] at this
      unfold listGet at this
      rw [List.getD_eq_getElem?_getD] at this
      exact this

theorem BitSet.valid_clear {S : Nat} {bs : BitSet S} {i : Nat}
    (hv : BitSet.Valid S bs) (hi : i < S) : BitSet.Valid S (bs.clear i) := by
  obtain ⟨hlen, hbound, hpad⟩ := hv
  refine ⟨by rw [← hlen]; exact List.length_set _ _ _, ?_, ?_⟩
  · intro w hw
    rcases List.mem_or_eq_of_mem_set hw with hmem | heq
    · exact hbound w hmem
    · rw [heq]
      exact Nat.lt_of_le_of_lt Nat.and_le_left (getD_lt_two_pow hbound _)
  · intro k hk
    show wordGet ((bs.bits.set (i / 64)
      ((bs.bits.getD (i / 64) 0) &&& (allOnes ^^^ (1 <<< (63 - i % 64))))).getD
        (k / 64) 0) (k % 64) = false
    have hold : wordGet (bs.bits.getD (k / 64) 0) (k % 64) = false := by
      have := hpad k hk
      rw [BitSet.get_eq_listGet] at this
      exact this
    by_cases hd : k / 64 = i / 64
    · have hrange : i / 64 < bs.bits.length := by rw [hlen]; omega
      rw [hd, List.getD_eq_getElem?_getD, List.getElem?_set_self hrange]
      show wordGet ((bs.bits.getD (i / 64) 0) &&& (allOnes ^^^ (1 <<< (63 - i % 64))))
        (k % 64) = false
      rw [wordGet_and]
      rw [← hd, hold]
      rfl
    · rw [List.getD_eq_getElem?_getD, List.getElem?_set_ne (fun h => hd h.symm)]
      rw [List.getD_eq_getElem?_getD] at hold
      exact hold

/-- Every state reachable by in-range `set`/`clear` calls is well formed. -/
theorem BitSet.valid_of_reachable {S : Nat} {bs : BitSet S}
    (h : BitSet.Reachable S bs) : BitSet.Valid S bs := by
  induction h with
  | init => exact BitSet.valid_init S
  | set _ hi ih => exact BitSet.valid_set ih hi
  | clear _ hi ih => exact BitSet.valid_clear ih hi

/-! ### Bit-set level specifications -/

/-- Transport of `listGet` across `List.drop`. -/
theorem listGet_drop {ws : List Nat} {d p : Nat} :
    listGet (ws.drop d) p = listGet ws (64 * d + p) := by
  unfold listGet
  rw [List.getD_eq_getElem?_getD, List.getD_eq_getElem?_getD, List.getElem?_drop,
    Nat.mul_add_div (by omega), Nat.mul_add_mod]

/-- The `first_zero` on a well-formed bit set: returns `S` exactly when every
bit below `S` is set, and otherwise the smallest clear index. -/
theorem BitSet.first_zero_spec {S : Nat} (bs : BitSet S) (hv : BitSet.Valid S bs) :
    (bs.first_zero = S ↔ ∀ j, j < S → bs.get j = true) ∧
    (bs.first_zero < S → bs.get bs.first_zero = false ∧
      ∀ j, j < bs.first_zero → bs.get j = true) := by
  obtain ⟨hlen, hbound, hpad⟩ := hv
  have h64 : S ≤ 64 * bs.bits.length := by rw [hlen]; omega
  have hfz : bs.first_zero = first_zeroAux S bs.bits 0 := rfl
  rcases first_zeroAux_spec S bs.bits 0 hbound with ⟨hres, hall⟩ | ⟨k, hres, hk, hget, hmin⟩
  · rw [hfz, hres]
    constructor
    · constructor
      · intro _ j hj
        rw [BitSet.get_eq_listGet]
        exact hall j (by omega)
      · intro _
        rfl
    · intro h
      omega
  · rw [Nat.zero_add] at hres
    have hkS : k ≤ S := by
      by_contra hcon
      have h1 := hmin S (by omega)
      have h2 := hpad S (Nat.le_refl S)
      rw [BitSet.get_eq_listGet] at h2
      rw [h2] at h1
      exact Bool.false_ne_true h1
    rw [hfz, hres]
    by_cases hkeq : k = S
    · subst hkeq
      constructor
      · constructor
        · intro _ j hj
          rw [BitSet.get_eq_listGet]
          exact hmin j hj
        · intro _
          rfl
      · intro h
        omega
    · constructor
      · constructor
        · intro hSk
          omega
        · intro hall2
          exfalso
          have h1 := hall2 k (by omega)
          rw [BitSet.get_eq_listGet, hget] at h1
          exact Bool.false_ne_true h1
      · intro _
        refine ⟨by rw [BitSet.get_eq_listGet]; exact hget, ?_⟩
        intro j hj
        rw [BitSet.get_eq_listGet]
        exact hmin j hj

/-- The `one_after` on a well-formed bit set: the result is strictly above the
argument, bounded by `S`, and is the first set index above the argument
(with `S` meaning none exists). -/
theorem BitSet.one_after_spec {S : Nat} (bs : BitSet S) (hv : BitSet.Valid S bs)
    (i : Nat) (hi : i < S) :
    i < bs.one_after i ∧ bs.one_after i ≤ S ∧
    (bs.one_after i < S → bs.get (bs.one_after i) = true) ∧
    (∀ t, i < t → t < bs.one_after i → bs.get t = false) ∧
    (bs.one_after i = S → ∀ t, i < t → t < S → bs.get t = false) := by
  obtain ⟨hlen, hbound, hpad⟩ := hv
  have h64 : S ≤ 64 * bs.bits.length := by rw [hlen]; omega
  have hdrop : ∀ x ∈ bs.bits.drop ((i + 1) / 64), x < 2 ^ 64 :=
    fun x hx => hbound x (List.drop_subset _ _ hx)
  have hoa : bs.one_after i =
      one_afterAux S (bs.bits.drop ((i + 1) / 64)) ((i + 1) / 64) ((i + 1) % 64) := rfl
  have hdb : 64 * ((i + 1) / 64) + (i + 1) % 64 = i + 1 := Nat.div_add_mod (i + 1) 64
  have hlendrop : (bs.bits.drop ((i + 1) / 64)).length =
      bs.bits.length - (i + 1) / 64 := List.length_drop _ _
  rcases one_afterAux_spec S (bs.bits.drop ((i + 1) / 64)) ((i + 1) / 64) ((i + 1) % 64)
      hdrop (by omega) with ⟨hres, hall⟩ | ⟨p, hres, hpb, hplt, htrue, hmin⟩
  · -- no set bit above `i`
    have hfalse : ∀ t, i < t → t < S → bs.get t = false := by
      intro t hti htS
      have h1 : (i + 1) % 64 ≤ t - 64 * ((i + 1) / 64) := by omega
      have h2 : t - 64 * ((i + 1) / 64) < 64 * (bs.bits.drop ((i + 1) / 64)).length := by
        rw [hlendrop]
        omega
      have h3 := hall _ h1 h2
      rw [listGet_drop] at h3
      rw [BitSet.get_eq_listGet]
      rw [show 64 * ((i + 1) / 64) + (t - 64 * ((i + 1) / 64)) = t from by omega] at h3
      exact h3
    rw [hoa, hres]
    exact ⟨hi, Nat.le_refl S, fun h => absurd h (lt_irrefl S), fun t ht1 ht2 => hfalse t ht1 ht2,
      fun _ t ht1 ht2 => hfalse t ht1 ht2⟩
  · -- the first set bit above `i` is at `(i+1)/64 * 64 + p`
    have hgettrue : bs.get ((i + 1) / 64 * 64 + p) = true := by
      rw [BitSet.get_eq_listGet]
      have := htrue
      rw [listGet_drop] at this
      rw [show (i + 1) / 64 * 64 + p = 64 * ((i + 1) / 64) + p from by omega]
      exact this
    have htS : (i + 1) / 64 * 64 + p < S := by
      by_contra hcon
      have hx := hpad ((i + 1) / 64 * 64 + p) (by omega)
      rw [hx] at hgettrue
      exact Bool.false_ne_true hgettrue
    have hti : i < (i + 1) / 64 * 64 + p := by omega
    rw [hoa, hres]
    refine ⟨hti, by omega, fun _ => hgettrue, ?_, ?_⟩
    · intro t ht1 ht2
      have h1 : (i + 1) % 64 ≤ t - 64 * ((i + 1) / 64) := by omega
      have h2 : t - 64 * ((i + 1) / 64) < p := by omega
      have h3 := hmin _ h1 h2
      rw [listGet_drop] at h3
      rw [BitSet.get_eq_listGet]
      rw [show 64 * ((i + 1) / 64) + (t - 64 * ((i + 1) / 64)) = t from by omega] at h3
      exact h3
    · intro h t _ _
      exfalso
      omega

/-- C9: bitset laws.  For every `BitSet` of size `S` reachable by
`set`/`clear` operations on indices below `S`: `first_zero()` returns `S`
if and only if all `S` bits are set, and otherwise returns the smallest
index whose bit is 0; and for every `i < S`, `one_after(i)` is strictly
greater than `i` and computes the smallest set index above `i` (or `S`
when none exists) — in particular it is monotone, and iterating it from
any index yields a strictly increasing sequence of results. -/
theorem C9_bitset_laws {S : Nat} (bs : BitSet S) (hreach : BitSet.Reachable S bs)
    (i : Nat) (hi : i < S) :
    (bs.first_zero = S ↔ ∀ j, j < S → bs.get j = true) ∧
    (bs.first_zero < S → bs.get bs.first_zero = false ∧
      ∀ j, j < bs.first_zero → bs.get j = true) ∧
    i < bs.one_after i ∧ bs.one_after i ≤ S ∧
    (bs.one_after i < S → bs.get (bs.one_after i) = true) ∧
    (∀ t, i < t → t < bs.one_after i → bs.get t = false) ∧
    (bs.one_after i = S → ∀ t, i < t → t < S → bs.get t = false) ∧
    (∀ j, i ≤ j → j < S → bs.one_after i ≤ bs.one_after j) := by
  have hv := BitSet.valid_of_reachable hreach
  have hfz := BitSet.first_zero_spec bs hv
  have hoa := BitSet.one_after_spec bs hv i hi
  refine ⟨hfz.1, hfz.2, hoa.1, hoa.2.1, hoa.2.2.1, hoa.2.2.2.1, hoa.2.2.2.2, ?_⟩
  intro j hij hj
  have hoaj := BitSet.one_after_spec bs hv j hj
  by_contra hcon
  have ht2 : bs.one_after j < bs.one_after i := by omega
  have htS : bs.one_after j < S := Nat.lt_of_lt_of_le ht2 hoa.2.1
  have hgt := hoaj.2.2.1 htS
  have hgf := hoa.2.2.2.1 (bs.one_after j) (by have := hoaj.1; omega) ht2
  rw [hgf] at hgt
  exact Bool.false_ne_true hgt

/-- C9 witness: the laws applied to the concrete 3-bit set `{1}` obtained
by one constructor call and one `set(1)`, at `i = 0`. -/
theorem C9_bitset_laws_witness :
    (((BitSet.init 3).set 1).first_zero = 3 ↔
      ∀ j, j < 3 → ((BitSet.init 3).set 1).get j = true) ∧
    (((BitSet.init 3).set 1).first_zero < 3 →
      ((BitSet.init 3).set 1).get (((BitSet.init 3).set 1).first_zero) = false ∧
      ∀ j, j < ((BitSet.init 3).set 1).first_zero → ((BitSet.init 3).set 1).get j = true) ∧
    0 < ((BitSet.init 3).set 1).one_after 0 ∧ ((BitSet.init 3).set 1).one_after 0 ≤ 3 ∧
    (((BitSet.init 3).set 1).one_after 0 < 3 →
      ((BitSet.init 3).set 1).get (((BitSet.init 3).set 1).one_after 0) = true) ∧
    (∀ t, 0 < t → t < ((BitSet.init 3).set 1).one_after 0 →
      ((BitSet.init 3).set 1).get t = false) ∧
    (((BitSet.init 3).set 1).one_after 0 = 3 →
      ∀ t, 0 < t → t < 3 → ((BitSet.init 3).set 1).get t = false) ∧
    (∀ j, 0 ≤ j → j < 3 →
      ((BitSet.init 3).set 1).one_after 0 ≤ ((BitSet.init 3).set 1).one_after j) :=
  C9_bitset_laws ((BitSet.init 3).set 1)
    (BitSet.Reachable.set BitSet.Reachable.init (by decide)) 0 (by decide)

/-! ## Theorems about the slab chunks, iterator, bump heap and collector -/

/-- Setting an in-range bit makes it read back as set. -/
theorem BitSet.get_set_self {S : Nat} (bs : BitSet S) (i : Nat)
    (hlen : bs.bits.length = (S + 63) / 64) (hi : i < S) :
    (bs.set i).get i = true := by
  show wordGet ((bs.bits.set (i / 64)
    ((bs.bits.getD (i / 64) 0) ||| (1 <<< (63 - i % 64)))).getD (i / 64) 0) (i % 64) = true
  have hrange : i / 64 < bs.bits.length := by rw [hlen]; omega
  rw [List.getD_eq_getElem?_getD, List.getElem?_set_self hrange]
  show wordGet ((bs.bits.getD (i / 64) 0) ||| (1 <<< (63 - i % 64))) (i % 64) = true
  unfold wordGet
  rw [Nat.testBit_or]
  have hbit : (1 <<< (63 - i % 64)).testBit (63 - i % 64) = true := by
    rw [Nat.shiftLeft_eq, one_mul]
    exact Nat.testBit_two_pow_self
  rw [hbit, Bool.or_true]

/-- C8 counterexample: `alloc(10)` on a fresh 4 KiB heap with no header
returns a pointer whose bounds are 16 (the granularity-rounded size), not
exactly the requested 10 bytes. -/
theorem C8_bump_alloc_counterexample :
    (@bump_alloc 4096 0 ⟨BitSet.init (4096 / alloc_granularity), 0⟩ 10).1 = some (0, 16) ∧
    (16 : Nat) ≠ 10 := by decide

/-- C8 (amended): a successful `bump_the_pointer_heap::alloc(size)` sets
the start bit at index `offset / alloc_granularity` for the allocation's
start offset, and returns a pointer whose bounds are the
granularity-rounded size `roundUp(size + header_size) - header_size` (not
exactly the requested size), advancing `start` by the rounded size. -/
theorem C8_bump_alloc_amended {HeapSize HeaderSize : Nat}
    (st : BumpHeap HeapSize HeaderSize) (size : Nat)
    (hlen : st.start_bits.bits.length = (HeapSize / alloc_granularity + 63) / 64)
    (hok : st.start ≤ HeapSize)
    (hidx : st.start / alloc_granularity < HeapSize / alloc_granularity) :
    (bump_alloc st size).1 =
      some (st.start + HeaderSize,
            roundUp alloc_granularity (size + HeaderSize) - HeaderSize) ∧
    (bump_alloc st size).2.start_bits.get (st.start / alloc_granularity) = true ∧
    (bump_alloc st size).2.start =
      st.start + roundUp alloc_granularity (size + HeaderSize) := by
  unfold bump_alloc
  rw [if_neg (by omega)]
  exact ⟨rfl, BitSet.get_set_self _ _ hlen hidx, rfl⟩

/-- C8 witness: the amended postcondition applied to `alloc(10)` on a
fresh 4 KiB heap with no header. -/
theorem C8_bump_alloc_witness :
    (@bump_alloc 4096 0 ⟨BitSet.init (4096 / alloc_granularity), 0⟩ 10).1 =
      some (0 + 0, roundUp alloc_granularity (10 + 0) - 0) ∧
    (@bump_alloc 4096 0 ⟨BitSet.init (4096 / alloc_granularity), 0⟩ 10).2.start_bits.get
        (0 / alloc_granularity) = true ∧
    (@bump_alloc 4096 0 ⟨BitSet.init (4096 / alloc_granularity), 0⟩ 10).2.start =
      0 + roundUp alloc_granularity (10 + 0) :=
  C8_bump_alloc_amended ⟨BitSet.init (4096 / alloc_granularity), 0⟩ 10
    (by decide) (by decide) (by decide)

/-- C3: a full large-class chunk does *not* produce the `-1` sentinel and a
null allocation.  For every large chunk state with `free_allocs_total = 0`
and every allocation size `1 < A ≤ 2^64`, `reserve_allocation` returns
`(2^64 - 1) * A mod 2^64 = 2^64 - A`, which differs from the `-1` sentinel
(`2^64 - 1`), so the `offset == -1` test in `FixedAllocator::alloc` fails
and `alloc` returns a (bogus) non-null pointer instead of null. -/
theorem C3_full_large_chunk_alloc_not_null {A C : Nat} (st : LargeState A C)
    (hA : 1 < A) (hA64 : A ≤ 2 ^ 64) (hfull : st.free_allocs_total = 0) :
    large_reserve_allocation st = (2 ^ 64 - A, st) ∧
    2 ^ 64 - A ≠ 2 ^ 64 - 1 ∧
    ∀ sz : Nat, (fixed_alloc_large sz st).1 = some (2 ^ 64 - A, sz) := by
  have hr : large_reserve_allocation st = (2 ^ 64 - A, st) := by
    unfold large_reserve_allocation
    rw [if_neg (by omega)]
    rw [show (2 ^ 64 - 1) * A % 2 ^ 64 = 2 ^ 64 - A from by omega]
  refine ⟨hr, by omega, ?_⟩
  intro sz
  unfold fixed_alloc_large
  rw [hr]
  rw [if_neg (by omega : ¬ ((2 ^ 64 - A, st) : Nat × LargeState A C).1 = 2 ^ 64 - 1)]

/-- C3 witness: a 32 KiB large chunk (`LargeAllocator<32768>` over a 2 MiB
chunk) with no free slots: `reserve_allocation` returns
`2^64 - 32768 ≠ 2^64 - 1` and `alloc(32768)` returns a non-null result. -/
theorem C3_full_large_chunk_witness :
    large_reserve_allocation (A := 32768) (C := 2097152)
      ⟨BitSet.init (2097152 / 32768), 0⟩ =
      (2 ^ 64 - 32768, ⟨BitSet.init (2097152 / 32768), 0⟩) ∧
    2 ^ 64 - 32768 ≠ 2 ^ 64 - 1 ∧
    ∀ sz : Nat, (fixed_alloc_large sz
      ((⟨BitSet.init (2097152 / 32768), 0⟩ : LargeState 32768 2097152))).1 =
      some (2 ^ 64 - 32768, sz) :=
  C3_full_large_chunk_alloc_not_null ⟨BitSet.init (2097152 / 32768), 0⟩
    (by decide) (by norm_num) rfl

/-- C5: the slab-chunk counting invariant `Σ free_count = free_allocs_total`
is broken by `free_allocation`, which *decrements* `free_allocs_total`
instead of incrementing it.  Concretely, for a `SmallAllocationHeader` with
`AllocSize = 2048` over a 32 KiB chunk (folio size 4096, 2 slots per folio,
6 header folios, header size parameter 4096): the invariant holds
initially (4 = 4) and after one `reserve_allocation` (3 = 3), but after
freeing the reserved slot the folio free counts sum to 4 while
`free_allocs_total` has dropped to 2. -/
theorem C5_free_total_invariant_broken :
    sumFreeCount (small_init 2048 32768 4096) = 4 ∧
    (small_init 2048 32768 4096).free_allocs_total = 4 ∧
    (small_reserve_allocation (small_init 2048 32768 4096)).1 = some 24576 ∧
    sumFreeCount (small_reserve_allocation (small_init 2048 32768 4096)).2 = 3 ∧
    (small_reserve_allocation (small_init 2048 32768 4096)).2.free_allocs_total = 3 ∧
    sumFreeCount (small_free_allocation
      (small_reserve_allocation (small_init 2048 32768 4096)).2 24576).1 = 4 ∧
    (small_free_allocation
      (small_reserve_allocation (small_init 2048 32768 4096)).2 24576).1.free_allocs_total
      = 2 ∧
    (4 : Nat) ≠ 2 := by decide

/-- C6: the folio-empty page-release hint fires on the wrong condition
(`free_count == alloc_in_folio`, the freed slot's index, instead of
`free_count == allocs_per_folio`).  With `AllocSize = 2048` over a 32 KiB
chunk (2 slots per folio): allocating both slots of folio 6 and freeing
them in allocation order makes the folio entirely free without any hint
being issued; freeing the second slot first issues a hint over
`(26624, 4096)` while slot 0 of the folio is still allocated. -/
theorem C6_folio_release_hint_wrong :
    ((small_free_allocation
        (small_free_allocation
          (small_reserve_allocation
            (small_reserve_allocation (small_init 2048 32768 4096)).2).2 24576).1
        26624).2.1 = [] ∧
     (small_free_allocation
        (small_reserve_allocation
          (small_reserve_allocation (small_init 2048 32768 4096)).2).2 24576).2.1 = [] ∧
     ((small_free_allocation
        (small_free_allocation
          (small_reserve_allocation
            (small_reserve_allocation (small_init 2048 32768 4096)).2).2 24576).1
        26624).1.folios.getD 6 (dummyFolio 2048)).free_count = allocs_per_folio 2048 ∧
     ((small_free_allocation
        (small_free_allocation
          (small_reserve_allocation
            (small_reserve_allocation (small_init 2048 32768 4096)).2).2 24576).1
        26624).1.folios.getD 6 (dummyFolio 2048)).free.get 0 = false ∧
     ((small_free_allocation
        (small_free_allocation
          (small_reserve_allocation
            (small_reserve_allocation (small_init 2048 32768 4096)).2).2 24576).1
        26624).1.folios.getD 6 (dummyFolio 2048)).free.get 1 = false) ∧
    ((small_free_allocation
        (small_reserve_allocation
          (small_reserve_allocation (small_init 2048 32768 4096)).2).2 26624).2.1 =
       [(26624, 4096)] ∧
     ((small_free_allocation
        (small_reserve_allocation
          (small_reserve_allocation (small_init 2048 32768 4096)).2).2 26624).1.folios.getD
          6 (dummyFolio 2048)).free.get 0 = true) := by decide

/-- C7: iteration is *not* complete.  With one chunk in bucket 0 holding
allocation `10` and one chunk in bucket 1 holding allocation `20`, the
iterator stops after bucket 0 (the `bucket < 1` guard in `fill_iterator`
treats bucket 0 like the `-1` non-fixed sentinel), so allocation `20` is
never yielded even though it is live; when bucket 0 is empty the same
bucket-1 chunk *is* yielded. -/
theorem C7_iteration_misses_buckets_after_bucket_zero :
    slab_iterate [[[10]], [[20]]] = [10] ∧
    (20 : Nat) ∈ ([[[10]], [[20]]] : List (List (List Nat))).flatten.flatten ∧
    (20 : Nat) ∉ slab_iterate [[[10]], [[20]]] ∧
    slab_iterate [[], [[20]]] = [20] := by decide

/-- C1: the update-pointers phase never rewrites any interior pointer
slot.  Part one: for *every* heap, lookup function, move function and
root set, every object's slots are unchanged by `update_pointers`
(because `ptr_as_cap` is default-constructed instead of being initialised
from the slot, the `!ptr_as_cap` test always takes the `continue`).  Part
two, a concrete failing heap: object A (visited, contains-pointers) at
address 1024 holds a valid pointer to object B at 2048, and B has
displacement `-512` (`2^64 - 512`); after `update_pointers` the slot in A
still holds 2048, not the required `2048 + (-512) = 1536`. -/
theorem C1_update_pointers_skips_interior_slots :
    (∀ (objs : List MCObj) (lookup : Cap → Option Nat) (moveRef : Cap → Nat → Cap)
        (roots : List Cap),
      ((mc_update_pointers objs lookup moveRef roots).2).map MCObj.slots =
        objs.map MCObj.slots) ∧
    ((mc_update_pointers
        [⟨⟨0, .visited, true⟩, ⟨true, 1024⟩, [⟨true, 2048⟩]⟩,
         ⟨⟨2 ^ 64 - 512, .visited, false⟩, ⟨true, 2048⟩, []⟩]
        (fun c => if c.valid && (1024 ≤ c.addr && c.addr < 1056) then some 0
                  else if c.valid && (2048 ≤ c.addr && c.addr < 2080) then some 1
                  else none)
        (fun c d => ⟨c.valid, (c.addr + d) % 2 ^ 64⟩)
        [⟨true, 1024⟩]).2.map MCObj.slots = [[⟨true, 2048⟩], []] ∧
      (2048 + (2 ^ 64 - 512)) % 2 ^ 64 = 1536 ∧
      (⟨true, 2048⟩ : Cap) ≠ ⟨true, 1536⟩) := by
  constructor
  · intro objs lookup moveRef roots
    show (objs.map _).map MCObj.slots = objs.map MCObj.slots
    rw [List.map_map]
    apply List.map_congr_left
    intro o _
    show MCObj.slots (if o.header.color ≠ MCColor.visited then o
      else if ¬ o.header.contains_pointers then o
      else { o with slots := o.slots.map _ }) = o.slots
    split
    · rfl
    · split
      · rfl
      · show ({ o with slots := o.slots.map _ } : MCObj).slots = o.slots
        show o.slots.map (fun ptr => if ¬ Cap.null.valid then ptr else _) = o.slots
        simp [Cap.null]
  · refine ⟨by decide, by decide, by decide⟩

end CheriGC
